import Mathlib

/-!
# Verification of `src/points-layer.js` (peaks.js `PointsLayer`)

Shallow embedding of the `PointsLayer` class.  The layer owns a registry
mapping point ids to markers (a JS object, modelled as an association list
with unique keys), a Konva layer holding the markers' visual nodes
(modelled as the list of attached point ids), an optional active drag
marker, and the editing flag.  Marker constructions and destructions are
recorded in an append-only event log so that claims about "no marker is
created/destroyed" can be stated as equalities.

External collaborators not present under `src/` are modelled at their
interface boundary:
* `Point#isVisible` (from `point.js`, not in `src/`) — Modelled from the
  spec: the visibility rule is owned by the point type, the layer only
  calls it, so it is an abstract boolean function in the environment.
* `PointMarker` (from `point-marker.js`, not in `src/`) — modelled as a
  record with the fields/methods the layer uses: `getPoint`, `getX`/`setX`,
  `getWidth`, `timeUpdated`, `destroy` (destroying removes the node from
  the Konva layer), `addToLayer`.
* the view (`timeToPixels`, `pixelOffsetToTime`, `getFrameOffset`,
  `getStartTime`, `getEndTime`, `getWidth`) and the store query
  (`peaks.points.find`) are abstract functions in the environment.
* Konva `Layer.removeChildren` detaches every child from the layer without
  destroying it (Konva's destroying variant is `destroyChildren`); a
  node's `destroy` removes it from its parent.
-/

namespace PointsLayerSpec

/-- A point annotation, as used by `points-layer.js`: stable unique `id`,
mutable `time`, capability flag `editable`, optional `color`. -/
structure Point where
  id : Nat
  time : Int
  editable : Bool
  color : Option String
deriving DecidableEq, Repr

/-- A point marker, keyed 1:1 by point id.  Models the `PointMarker`
wrapper (from `point-marker.js`, not in `src/`) at the interface the layer
uses: the stored point (`getPoint`), draggability, resolved style values,
x position (`getX`/`setX`), width (`getWidth`) and the internal time label
(`timeUpdated`). -/
structure PointMarker where
  point : Point
  draggable : Bool
  color : String
  fontFamily : String
  fontSize : Nat
  fontStyle : String
  x : Int
  width : Int
  timeLabel : Int
deriving DecidableEq, Repr

/-- Marker lifecycle events, recorded append-only: construction of a fresh
marker for a point id, and destruction (release of rendering resources)
of the marker for a point id. -/
inductive MarkerEvent where
  | created (id : Nat)
  | destroyed (id : Nat)
deriving DecidableEq, Repr

/-- Host-supplied options (`peaks.options`): the global default marker
color and the optional font configuration. -/
structure Options where
  pointMarkerColor : String
  fontFamily : Option String
  fontSize : Option Nat
  fontStyle : Option String
deriving DecidableEq, Repr

/-- The environment of the layer: the store query `find`, the point type's
visibility predicate, the view's visible range, projections and width,
the width the host's marker factory gives a point's marker, and the host
options. -/
structure Env where
  find : Int → Int → List Point
  isVisible : Point → Int → Int → Bool
  startTime : Int
  endTime : Int
  timeToPixels : Int → Int
  pixelOffsetToTime : Int → Int
  frameOffset : Int
  width : Int
  markerWidth : Point → Int
  options : Options

/-- The mutable state of a `PointsLayer`: the registry `_pointMarkers`
(JS object keyed by point id), the ids attached to the Konva layer,
`_dragPointMarker`, `_allowEditing`, and the marker lifecycle log. -/
structure LayerState where
  pointMarkers : List (Nat × PointMarker)
  layerChildren : List Nat
  dragPointMarker : Option PointMarker
  allowEditing : Bool
  events : List MarkerEvent
deriving DecidableEq, Repr

/-! ## Registry primitives (JS object semantics) -/

/-- `this._pointMarkers[i]`: first entry with key `i` (JS objects have
unique keys, so "first" is "the" entry). -/
def mapLookup (l : List (Nat × PointMarker)) (i : Nat) : Option PointMarker :=
  match l with
  | [] => none
  | (j, m) :: rest => if j = i then some m else mapLookup rest i

/-- `this._pointMarkers[i] = m`: overwrite the entry with key `i` if
present, otherwise append a new entry. -/
def mapInsert (l : List (Nat × PointMarker)) (i : Nat) (m : PointMarker) :
    List (Nat × PointMarker) :=
  match l with
  | [] => [(i, m)]
  | (j, m0) :: rest =>
    if j = i then (j, m) :: rest else (j, m0) :: mapInsert rest i m

/-- `delete this._pointMarkers[i]`. -/
def mapErase (l : List (Nat × PointMarker)) (i : Nat) : List (Nat × PointMarker) :=
  match l with
  | [] => []
  | (j, m) :: rest => if j = i then mapErase rest i else (j, m) :: mapErase rest i

/-- `pointMarker.setX(x)` on the registry's marker for key `i` (in JS the
marker object is mutated in place; the registry holds the same object). -/
def setMarkerX (l : List (Nat × PointMarker)) (i : Nat) (x : Int) :
    List (Nat × PointMarker) :=
  l.map (fun im => if im.1 = i then (im.1, { im.2 with x := x }) else im)

/-- The registry's key set (as a list; JS object keys are unique). -/
def registryKeys (st : LayerState) : List Nat :=
  st.pointMarkers.map Prod.fst

@[simp] theorem mapLookup_nil (i : Nat) : mapLookup [] i = none := rfl

@[simp] theorem mapLookup_cons (j : Nat) (m : PointMarker)
    (rest : List (Nat × PointMarker)) (i : Nat) :
    mapLookup ((j, m) :: rest) i = if j = i then some m else mapLookup rest i := rfl

theorem mapLookup_mapInsert (l : List (Nat × PointMarker)) (i : Nat)
    (m : PointMarker) (j : Nat) :
    mapLookup (mapInsert l i m) j = if i = j then some m else mapLookup l j := by
  induction l with
  | nil => by_cases h : i = j <;> simp [mapInsert, h]
  | cons hd tl ih =>
    obtain ⟨k, mk⟩ := hd
    by_cases hk : k = i
    · subst hk
      by_cases h : k = j <;> simp [mapInsert, h]
    · by_cases h : k = j
      · subst h
        simp [mapInsert, hk, Ne.symm hk]
      · simp [mapInsert, hk, h, ih]

theorem mapErase_eq_filter (l : List (Nat × PointMarker)) (i : Nat) :
    mapErase l i = l.filter (fun im => im.1 ≠ i) := by
  induction l with
  | nil => rfl
  | cons hd tl ih =>
    obtain ⟨k, mk⟩ := hd
    by_cases hk : k = i <;> simp [mapErase, hk, ih]

theorem mapLookup_mapErase (l : List (Nat × PointMarker)) (i j : Nat) :
    mapLookup (mapErase l i) j = if i = j then none else mapLookup l j := by
  induction l with
  | nil => simp [mapErase]
  | cons hd tl ih =>
    obtain ⟨k, mk⟩ := hd
    by_cases hk : k = i
    · subst hk
      by_cases h : k = j
      · subst h
        simp [mapErase, ih]
      · simp [mapErase, h, ih]
    · by_cases h : k = j
      · subst h
        have hij : ¬ i = k := fun hij => hk hij.symm
        simp [mapErase, hk, hij]
      · simp [mapErase, hk, h, ih]

theorem mapLookup_setMarkerX (l : List (Nat × PointMarker)) (i : Nat) (x : Int)
    (j : Nat) :
    mapLookup (setMarkerX l i x) j =
      if i = j then (mapLookup l j).map (fun m => { m with x := x })
      else mapLookup l j := by
  induction l with
  | nil => simp [setMarkerX]
  | cons hd tl ih =>
    obtain ⟨k, mk⟩ := hd
    simp only [setMarkerX, List.map_cons] at ih ⊢
    by_cases hk : k = i
    · subst hk
      by_cases h : k = j
      · subst h
        simp [ih]
      · have hij : ¬ k = j := h
        simp [hij, ih]
    · by_cases h : k = j
      · subst h
        have hij : ¬ i = k := fun hij => hk hij.symm
        simp [hk, hij]
      · simp [hk, h, ih]

theorem mem_keys_iff_lookup_isSome (l : List (Nat × PointMarker)) (i : Nat) :
    i ∈ l.map Prod.fst ↔ (mapLookup l i).isSome := by
  induction l with
  | nil => simp
  | cons hd tl ih =>
    obtain ⟨k, mk⟩ := hd
    by_cases h : k = i
    · subst h
      simp
    · have h2 : ¬ i = k := fun hik => h hik.symm
      simp [h, h2, ih]

theorem mapLookup_mem (l : List (Nat × PointMarker)) (i : Nat) (m : PointMarker)
    (h : mapLookup l i = some m) : (i, m) ∈ l := by
  induction l with
  | nil => simp [mapLookup] at h
  | cons hd tl ih =>
    obtain ⟨k, mk⟩ := hd
    by_cases hk : k = i
    · subst hk
      simp at h
      simp [h]
    · simp [hk] at h
      exact List.mem_cons_of_mem _ (ih h)

theorem mapLookup_eq_of_mem_nodup (l : List (Nat × PointMarker))
    (hnd : (l.map Prod.fst).Nodup) (im : Nat × PointMarker) (h : im ∈ l) :
    mapLookup l im.1 = some im.2 := by
  induction l with
  | nil => simp at h
  | cons hd tl ih =>
    obtain ⟨k, mk⟩ := hd
    simp only [List.map_cons, List.nodup_cons] at hnd
    rcases List.mem_cons.mp h with h1 | h1
    · subst h1
      simp
    · have hk : k ≠ im.1 := by
        intro hk
        exact hnd.1 (hk ▸ (List.mem_map.mpr ⟨im, h1, rfl⟩))
      simp [hk]
      exact ih hnd.2 h1

/-! ## Styling resolution and marker construction -/

/-- The default font family (`defaultFontFamily` in `points-layer.js`). -/
def defaultFontFamily : String := "sans-serif"

/-- The default font size (`defaultFontSize` in `points-layer.js`). -/
def defaultFontSize : Nat := 10

/-- The default font style (`defaultFontShape` in `points-layer.js`). -/
def defaultFontShape : String := "normal"

/-- JS `a || d` / `a ? a : d` for an optional string: falls back to the
default when the value is absent or falsy (the empty string). -/
def jsOrStr (a : Option String) (d : String) : String :=
  match a with
  | none => d
  | some s => if s = "" then d else s

/-- JS `a || d` for an optional number: falls back to the default when the
value is absent or falsy (zero). -/
def jsOrNat (a : Option Nat) (d : Nat) : Nat :=
  match a with
  | none => d
  | some n => if n = 0 then d else n

/-- `PointsLayer.prototype._createPointMarker`: resolves editability as
`allowEditing && point.editable`, the color as the point's own color if
truthy else the global `pointMarkerColor`, and the font values with the
fixed defaults; builds the `PointMarker` wrapper.  A fresh Konva node has
x 0; the host factory determines the marker's width; the marker's time
label starts at the point's time. -/
def createPointMarker (env : Env) (allowEditing : Bool) (point : Point) :
    PointMarker :=
  let editable := allowEditing && point.editable
  { point := point
    draggable := editable
    color := jsOrStr point.color env.options.pointMarkerColor
    fontFamily := jsOrStr env.options.fontFamily defaultFontFamily
    fontSize := jsOrNat env.options.fontSize defaultFontSize
    fontStyle := jsOrStr env.options.fontStyle defaultFontShape
    x := 0
    width := env.markerWidth point
    timeLabel := point.time }

/-! ## Layer operations (translated from `points-layer.js`) -/

/-- `PointsLayer.prototype._addPointMarker`: constructs the marker,
stores it in the registry under `point.id`, attaches it to the Konva
layer; returns the new state and the marker.  The construction is logged. -/
def addPointMarker (env : Env) (st : LayerState) (point : Point) :
    LayerState × PointMarker :=
  let m := createPointMarker env st.allowEditing point
  ({ st with
      pointMarkers := mapInsert st.pointMarkers point.id m
      layerChildren := st.layerChildren ++ [point.id]
      events := st.events ++ [MarkerEvent.created point.id] }, m)

/-- `PointsLayer.prototype._removePoint`: if a marker is registered for
`point.id`, destroy it (releasing it from the Konva layer; logged) and
delete the registry key; otherwise do nothing. -/
def removePoint (st : LayerState) (point : Point) : LayerState :=
  match mapLookup st.pointMarkers point.id with
  | none => st
  | some _ =>
    { st with
        pointMarkers := mapErase st.pointMarkers point.id
        layerChildren := st.layerChildren.filter (fun j => j ≠ point.id)
        events := st.events ++ [MarkerEvent.destroyed point.id] }

/-- `PointsLayer.prototype._findOrAddPointMarker`: the registered marker
for `point.id` if any, otherwise a freshly added one. -/
def findOrAddPointMarker (env : Env) (st : LayerState) (point : Point) :
    LayerState × PointMarker :=
  match mapLookup st.pointMarkers point.id with
  | some m => (st, m)
  | none => addPointMarker env st point

/-- `PointsLayer.prototype._updatePoint`: find or create the point's
marker, then set its x position to
`view.timeToPixels(point.time) - view.getFrameOffset()`. -/
def updatePoint (env : Env) (st : LayerState) (point : Point) : LayerState :=
  let stm := findOrAddPointMarker env st point
  let pointMarkerOffset := env.timeToPixels point.time
  let pointMarkerX := pointMarkerOffset - env.frameOffset
  { stm.1 with pointMarkers := setMarkerX stm.1.pointMarkers point.id pointMarkerX }

/-- The loop body of `PointsLayer.prototype._removeInvisiblePoints`: for
one registry entry, remove the marker's point when it is not visible. -/
def removeInvisibleStep (env : Env) (startTime endTime : Int)
    (st : LayerState) (im : Nat × PointMarker) : LayerState :=
  if env.isVisible im.2.point startTime endTime then st
  else removePoint st im.2.point

/-- `PointsLayer.prototype._removeInvisiblePoints`: iterate over the
registry entries and remove every marker whose point is no longer visible
in the given range. -/
def removeInvisiblePoints (env : Env) (st : LayerState)
    (startTime endTime : Int) : LayerState :=
  st.pointMarkers.foldl (removeInvisibleStep env startTime endTime) st

/-- `PointsLayer.prototype.updatePoints`: query the store for the points
in the visible range and update each, then remove the markers of points
that are not visible. -/
def updatePoints (env : Env) (st : LayerState) (startTime endTime : Int) :
    LayerState :=
  let points := env.find startTime endTime
  let st1 := points.foldl (updatePoint env) st
  removeInvisiblePoints env st1 startTime endTime

/-- `PointsLayer.prototype._onPointsUpdate`: remove any existing marker
for the point, re-add it if visible, then run a full `updatePoints` pass
over the view's current range. -/
def onPointsUpdate (env : Env) (st : LayerState) (point : Point) : LayerState :=
  let frameStartTime := env.startTime
  let frameEndTime := env.endTime
  let st1 := removePoint st point
  let st2 :=
    if env.isVisible point frameStartTime frameEndTime then
      (addPointMarker env st1 point).1
    else st1
  updatePoints env st2 frameStartTime frameEndTime

/-- `PointsLayer.prototype._onPointsAdd`: add a marker for each visible
point of the batch, then run a full `updatePoints` pass. -/
def onPointsAdd (env : Env) (st : LayerState) (points : List Point) : LayerState :=
  let frameStartTime := env.startTime
  let frameEndTime := env.endTime
  let st1 := points.foldl
    (fun acc p =>
      if env.isVisible p frameStartTime frameEndTime then
        (addPointMarker env acc p).1
      else acc)
    st
  updatePoints env st1 frameStartTime frameEndTime

/-- `PointsLayer.prototype._onPointsRemove`: remove each point of the
batch. -/
def onPointsRemove (st : LayerState) (points : List Point) : LayerState :=
  points.foldl removePoint st

/-- `PointsLayer.prototype._onPointsRemoveAll`:
`this._layer.removeChildren()` detaches every node from the Konva layer
(without destroying it), and the registry is reset to a fresh empty
object. -/
def onPointsRemoveAll (st : LayerState) : LayerState :=
  { st with pointMarkers := [], layerChildren := [] }

/-- `PointsLayer.prototype._onPointsDrag`: reposition (or create) the
dragged point's marker; no visibility check is made. -/
def onPointsDrag (env : Env) (st : LayerState) (point : Point) : LayerState :=
  updatePoint env st point

/-- `PointsLayer.prototype._onPointHandleDragStart`: record the dragged
point's registered marker as the active drag session. -/
def onPointHandleDragStart (st : LayerState) (point : Point) : LayerState :=
  { st with dragPointMarker := mapLookup st.pointMarkers point.id }

/-- `PointsLayer.prototype._onPointHandleDragEnd`: clear the active drag
session. -/
def onPointHandleDragEnd (st : LayerState) : LayerState :=
  { st with dragPointMarker := none }

/-- `PointsLayer.prototype._onPointHandleDragMove`: read the dragged
marker's x position plus width, convert that pixel offset back to a time,
write it onto the point via `point._setTime`, and update the marker's
time label.  In JS a missing marker would fault on `pointMarker.getX()`;
this is `none`. -/
def onPointHandleDragMove (env : Env) (st : LayerState) (point : Point) :
    Option (LayerState × Point) :=
  match mapLookup st.pointMarkers point.id with
  | none => none
  | some pointMarker =>
    let markerX := pointMarker.x
    let offset := markerX + pointMarker.width
    let t := env.pixelOffsetToTime offset
    let point1 := { point with time := t }
    let marker1 := { pointMarker with timeLabel := point1.time }
    some ({ st with pointMarkers := mapInsert st.pointMarkers point.id marker1 },
      point1)

/-- Modelled from the spec: `clamp` from `utils.js` (not in `src/`)
restricts a value to the closed range `[lo, hi]`. -/
def clamp (x lo hi : Int) : Int :=
  if x < lo then lo else if x > hi then hi else x

/-- `PointsLayer.prototype._pointHandleDragBoundFunc`, horizontal part:
the x coordinate the drag is constrained to,
`clamp(pos.x, 0, view.getWidth())` (the y coordinate is frozen to the
dragged marker's current absolute y). -/
def pointHandleDragBoundFuncX (env : Env) (posX : Int) : Int :=
  clamp posX 0 env.width

/-- Modelled from the spec: the scene-graph engine (Konva, external)
moves a dragged node to the pointer position as constrained by the drag
bound function; the marker for `i` therefore ends at
`clamp(x, 0, view.getWidth())` when the pointer moves to pixel `x`. -/
def dragMarkerTo (env : Env) (st : LayerState) (i : Nat) (x : Int) : LayerState :=
  { st with pointMarkers := setMarkerX st.pointMarkers i (pointHandleDragBoundFuncX env x) }

/-! ## Basic lemmas about the operations -/

/-- The key invariant of the registry: every entry is keyed by its
marker's point id (markers are stored under `point.id`). -/
def keyInv (l : List (Nat × PointMarker)) : Prop :=
  ∀ im ∈ l, im.2.point.id = im.1

theorem removePoint_dragPointMarker (st : LayerState) (p : Point) :
    (removePoint st p).dragPointMarker = st.dragPointMarker := by
  unfold removePoint
  cases mapLookup st.pointMarkers p.id <;> rfl

theorem updatePoint_dragPointMarker (env : Env) (st : LayerState) (p : Point) :
    (updatePoint env st p).dragPointMarker = st.dragPointMarker := by
  unfold updatePoint findOrAddPointMarker
  cases mapLookup st.pointMarkers p.id <;> rfl

theorem updatePoint_allowEditing (env : Env) (st : LayerState) (p : Point) :
    (updatePoint env st p).allowEditing = st.allowEditing := by
  unfold updatePoint findOrAddPointMarker
  cases mapLookup st.pointMarkers p.id <;> rfl

theorem foldl_dragPointMarker {α : Type} (f : LayerState → α → LayerState)
    (hf : ∀ st a, (f st a).dragPointMarker = st.dragPointMarker) :
    ∀ (l : List α) (st : LayerState),
      (l.foldl f st).dragPointMarker = st.dragPointMarker := by
  intro l
  induction l with
  | nil => intro st; rfl
  | cons a l ih => intro st; rw [List.foldl_cons, ih, hf]

theorem removeInvisibleStep_dragPointMarker (env : Env) (s e : Int)
    (st : LayerState) (im : Nat × PointMarker) :
    (removeInvisibleStep env s e st im).dragPointMarker = st.dragPointMarker := by
  unfold removeInvisibleStep
  split
  · rfl
  · exact removePoint_dragPointMarker st im.2.point

theorem removeInvisiblePoints_dragPointMarker (env : Env) (st : LayerState)
    (s e : Int) :
    (removeInvisiblePoints env st s e).dragPointMarker = st.dragPointMarker :=
  foldl_dragPointMarker _ (removeInvisibleStep_dragPointMarker env s e)
    st.pointMarkers st

theorem updatePoints_dragPointMarker (env : Env) (st : LayerState) (s e : Int) :
    (updatePoints env st s e).dragPointMarker = st.dragPointMarker := by
  unfold updatePoints
  rw [removeInvisiblePoints_dragPointMarker,
    foldl_dragPointMarker _ (updatePoint_dragPointMarker env)]

/-! ## Lookup characterization of `updatePoint` -/

theorem mapLookup_updatePoint_ne (env : Env) (st : LayerState) (p : Point)
    (i : Nat) (h : ¬ p.id = i) :
    mapLookup (updatePoint env st p).pointMarkers i = mapLookup st.pointMarkers i := by
  unfold updatePoint findOrAddPointMarker
  cases hm : mapLookup st.pointMarkers p.id with
  | none => simp [addPointMarker, mapLookup_setMarkerX, mapLookup_mapInsert, h]
  | some m => simp [mapLookup_setMarkerX, h]

theorem mapLookup_updatePoint_self_found (env : Env) (st : LayerState) (p : Point)
    (m : PointMarker) (hm : mapLookup st.pointMarkers p.id = some m) :
    mapLookup (updatePoint env st p).pointMarkers p.id =
      some { m with x := env.timeToPixels p.time - env.frameOffset } := by
  unfold updatePoint findOrAddPointMarker
  rw [hm]
  simp [mapLookup_setMarkerX, hm]

theorem mapLookup_updatePoint_self_none (env : Env) (st : LayerState) (p : Point)
    (hm : mapLookup st.pointMarkers p.id = none) :
    mapLookup (updatePoint env st p).pointMarkers p.id =
      some { createPointMarker env st.allowEditing p with
              x := env.timeToPixels p.time - env.frameOffset } := by
  unfold updatePoint findOrAddPointMarker
  rw [hm]
  simp [addPointMarker, mapLookup_setMarkerX, mapLookup_mapInsert]

theorem mapLookup_updatePoint_self_isSome (env : Env) (st : LayerState) (p : Point) :
    (mapLookup (updatePoint env st p).pointMarkers p.id).isSome := by
  cases hm : mapLookup st.pointMarkers p.id with
  | none => rw [mapLookup_updatePoint_self_none env st p hm]; rfl
  | some m => rw [mapLookup_updatePoint_self_found env st p m hm]; rfl

/-! ## Registry keys and invariants through `updatePoint` -/

theorem keys_setMarkerX (l : List (Nat × PointMarker)) (i : Nat) (x : Int) :
    (setMarkerX l i x).map Prod.fst = l.map Prod.fst := by
  induction l with
  | nil => rfl
  | cons hd tl ih =>
    simp only [setMarkerX, List.map_cons] at ih ⊢
    rw [ih]
    by_cases h : hd.1 = i <;> simp [h]

theorem keys_mapInsert_none (l : List (Nat × PointMarker)) (i : Nat)
    (m : PointMarker) (h : mapLookup l i = none) :
    (mapInsert l i m).map Prod.fst = l.map Prod.fst ++ [i] := by
  induction l with
  | nil => rfl
  | cons hd tl ih =>
    obtain ⟨k, mk⟩ := hd
    by_cases hk : k = i
    · subst hk
      simp at h
    · simp [hk] at h
      simp [mapInsert, hk, ih h]

theorem keys_updatePoint_found (env : Env) (st : LayerState) (p : Point)
    (h : (mapLookup st.pointMarkers p.id).isSome) :
    (updatePoint env st p).pointMarkers.map Prod.fst =
      st.pointMarkers.map Prod.fst := by
  unfold updatePoint findOrAddPointMarker
  cases hm : mapLookup st.pointMarkers p.id with
  | none => rw [hm] at h; simp at h
  | some m => simp [keys_setMarkerX]

theorem keys_updatePoint_none (env : Env) (st : LayerState) (p : Point)
    (h : mapLookup st.pointMarkers p.id = none) :
    (updatePoint env st p).pointMarkers.map Prod.fst =
      st.pointMarkers.map Prod.fst ++ [p.id] := by
  unfold updatePoint findOrAddPointMarker
  rw [h]
  simp [addPointMarker, keys_setMarkerX, keys_mapInsert_none _ _ _ h]

theorem nodup_keys_updatePoint (env : Env) (st : LayerState) (p : Point)
    (h : (st.pointMarkers.map Prod.fst).Nodup) :
    ((updatePoint env st p).pointMarkers.map Prod.fst).Nodup := by
  cases hm : mapLookup st.pointMarkers p.id with
  | none =>
    rw [keys_updatePoint_none env st p hm]
    have hni : p.id ∉ st.pointMarkers.map Prod.fst := by
      rw [mem_keys_iff_lookup_isSome, hm]
      simp
    simp [List.nodup_append, h, hni]
  | some m =>
    rw [keys_updatePoint_found env st p (by rw [hm]; rfl)]
    exact h

theorem keyInv_setMarkerX (l : List (Nat × PointMarker)) (i : Nat) (x : Int)
    (h : keyInv l) : keyInv (setMarkerX l i x) := by
  intro im him
  obtain ⟨b, hb, rfl⟩ := List.mem_map.mp him
  split <;> exact h b hb

theorem mem_mapInsert (l : List (Nat × PointMarker)) (i : Nat) (m : PointMarker)
    (a : Nat × PointMarker) (h : a ∈ mapInsert l i m) : a = (i, m) ∨ a ∈ l := by
  induction l with
  | nil =>
    simp [mapInsert] at h
    exact Or.inl h
  | cons hd tl ih =>
    obtain ⟨k, mk⟩ := hd
    by_cases hk : k = i
    · subst hk
      simp [mapInsert] at h
      rcases h with h | h
      · exact Or.inl (by simp [h])
      · exact Or.inr (List.mem_cons_of_mem _ h)
    · simp [mapInsert, hk] at h
      rcases h with h | h
      · exact Or.inr (by simp [h])
      · rcases ih h with h1 | h1
        · exact Or.inl h1
        · exact Or.inr (List.mem_cons_of_mem _ h1)

theorem keyInv_updatePoint (env : Env) (st : LayerState) (p : Point)
    (h : keyInv st.pointMarkers) : keyInv (updatePoint env st p).pointMarkers := by
  unfold updatePoint findOrAddPointMarker
  cases hm : mapLookup st.pointMarkers p.id with
  | none =>
    simp only [addPointMarker]
    apply keyInv_setMarkerX
    intro im him
    rcases mem_mapInsert _ _ _ _ him with h1 | h1
    · subst h1
      rfl
    · exact h im h1
  | some m =>
    apply keyInv_setMarkerX
    exact h

/-! ## The first phase of `updatePoints`: the fold of `updatePoint` -/

theorem nodup_keys_foldl_updatePoint (env : Env) (ps : List Point) :
    ∀ (st : LayerState), (st.pointMarkers.map Prod.fst).Nodup →
      ((ps.foldl (updatePoint env) st).pointMarkers.map Prod.fst).Nodup := by
  induction ps with
  | nil => intro st h; exact h
  | cons p rest ih =>
    intro st h
    rw [List.foldl_cons]
    exact ih _ (nodup_keys_updatePoint env st p h)

theorem keyInv_foldl_updatePoint (env : Env) (ps : List Point) :
    ∀ (st : LayerState), keyInv st.pointMarkers →
      keyInv (ps.foldl (updatePoint env) st).pointMarkers := by
  induction ps with
  | nil => intro st h; exact h
  | cons p rest ih =>
    intro st h
    rw [List.foldl_cons]
    exact ih _ (keyInv_updatePoint env st p h)

theorem mapLookup_foldl_updatePoint_notMem (env : Env) (ps : List Point) :
    ∀ (st : LayerState) (i : Nat), i ∉ ps.map Point.id →
      mapLookup (ps.foldl (updatePoint env) st).pointMarkers i =
        mapLookup st.pointMarkers i := by
  induction ps with
  | nil => intro st i _; rfl
  | cons p rest ih =>
    intro st i h
    simp only [List.map_cons, List.mem_cons] at h
    push_neg at h
    rw [List.foldl_cons, ih _ i h.2, mapLookup_updatePoint_ne]
    exact fun hpi => h.1 hpi.symm

theorem mapLookup_foldl_updatePoint_isSome_of_mem (env : Env) (ps : List Point) :
    ∀ (st : LayerState) (i : Nat), i ∈ ps.map Point.id →
      (mapLookup (ps.foldl (updatePoint env) st).pointMarkers i).isSome := by
  induction ps with
  | nil => intro st i h; simp at h
  | cons p rest ih =>
    intro st i h
    rw [List.foldl_cons]
    by_cases hr : i ∈ rest.map Point.id
    · exact ih _ i hr
    · have hpi : p.id = i := by
        simp only [List.map_cons, List.mem_cons] at h
        rcases h with h | h
        · exact h.symm
        · exact absurd h hr
      rw [mapLookup_foldl_updatePoint_notMem env rest _ i hr, ← hpi]
      exact mapLookup_updatePoint_self_isSome env st p

theorem point_preserved_foldl_updatePoint (env : Env) (ps : List Point) :
    ∀ (st : LayerState) (i : Nat) (m0 : PointMarker),
      mapLookup st.pointMarkers i = some m0 →
      ∃ m, mapLookup (ps.foldl (updatePoint env) st).pointMarkers i = some m ∧
        m.point = m0.point := by
  induction ps with
  | nil => intro st i m0 h; exact ⟨m0, h, rfl⟩
  | cons p rest ih =>
    intro st i m0 h
    rw [List.foldl_cons]
    by_cases hpi : p.id = i
    · subst hpi
      obtain ⟨m, hm, hpt⟩ := ih (updatePoint env st p) p.id _
        (mapLookup_updatePoint_self_found env st p m0 h)
      exact ⟨m, hm, hpt⟩
    · exact ih _ i m0 ((mapLookup_updatePoint_ne env st p i hpi).trans h)

theorem point_source_foldl_updatePoint (env : Env) (ps : List Point) :
    ∀ (st : LayerState) (i : Nat) (m : PointMarker),
      mapLookup (ps.foldl (updatePoint env) st).pointMarkers i = some m →
      (∃ m0, mapLookup st.pointMarkers i = some m0 ∧ m.point = m0.point) ∨
        (m.point ∈ ps ∧ m.point.id = i) := by
  induction ps with
  | nil => intro st i m h; exact Or.inl ⟨m, h, rfl⟩
  | cons p rest ih =>
    intro st i m h
    rw [List.foldl_cons] at h
    rcases ih _ i m h with ⟨m0, hl, hpt⟩ | ⟨hin, hid⟩
    · by_cases hpi : p.id = i
      · subst hpi
        cases hm : mapLookup st.pointMarkers p.id with
        | none =>
          rw [mapLookup_updatePoint_self_none env st p hm] at hl
          have hpt2 : m.point = p := by
            rw [hpt, Option.some_inj.mp hl.symm]
            rfl
          exact Or.inr ⟨by rw [hpt2]; exact List.mem_cons_self p rest,
            by rw [hpt2]⟩
        | some mf =>
          rw [mapLookup_updatePoint_self_found env st p mf hm] at hl
          refine Or.inl ⟨mf, rfl, ?_⟩
          rw [hpt, Option.some_inj.mp hl.symm]
      · rw [mapLookup_updatePoint_ne env st p i hpi] at hl
        exact Or.inl ⟨m0, hl, hpt⟩
    · exact Or.inr ⟨List.mem_cons_of_mem p hin, hid⟩

theorem x_correct_foldl_updatePoint (env : Env) (ps : List Point) :
    ∀ (st : LayerState) (p : Point), p ∈ ps → (ps.map Point.id).Nodup →
      (∀ m0, mapLookup st.pointMarkers p.id = some m0 → m0.point = p) →
      ∃ m, mapLookup (ps.foldl (updatePoint env) st).pointMarkers p.id = some m ∧
        m.point = p ∧ m.x = env.timeToPixels p.time - env.frameOffset := by
  induction ps with
  | nil => intro st p h; simp at h
  | cons q rest ih =>
    intro st p hmem hnd hst
    simp only [List.map_cons, List.nodup_cons] at hnd
    rw [List.foldl_cons]
    by_cases hr : p ∈ rest
    · have hqp : ¬ q.id = p.id := by
        intro hq
        exact hnd.1 (hq ▸ List.mem_map.mpr ⟨p, hr, rfl⟩)
      refine ih _ p hr hnd.2 ?_
      intro m0 hm0
      rw [mapLookup_updatePoint_ne env st q p.id hqp] at hm0
      exact hst m0 hm0
    · have hpq : p = q := by
        rcases List.mem_cons.mp hmem with h | h
        · exact h
        · exact absurd h hr
      subst hpq
      have hni : p.id ∉ rest.map Point.id := hnd.1
      rw [mapLookup_foldl_updatePoint_notMem env rest _ p.id hni]
      cases hm : mapLookup st.pointMarkers p.id with
      | none =>
        refine ⟨_, mapLookup_updatePoint_self_none env st p hm, ?_, rfl⟩
        rfl
      | some mf =>
        refine ⟨_, mapLookup_updatePoint_self_found env st p mf hm, ?_, rfl⟩
        exact hst mf hm

/-! ## The second phase of `updatePoints`: purging invisible markers -/

theorem mapErase_of_lookup_none (l : List (Nat × PointMarker)) (i : Nat)
    (h : mapLookup l i = none) : mapErase l i = l := by
  induction l with
  | nil => rfl
  | cons hd tl ih =>
    obtain ⟨k, mk⟩ := hd
    by_cases hk : k = i
    · subst hk
      simp at h
    · simp [hk] at h
      simp [mapErase, hk, ih h]

theorem removePoint_pointMarkers (st : LayerState) (p : Point) :
    (removePoint st p).pointMarkers = mapErase st.pointMarkers p.id := by
  unfold removePoint
  cases hm : mapLookup st.pointMarkers p.id with
  | none => exact (mapErase_of_lookup_none _ _ hm).symm
  | some m => rfl

/-- Whether a registry entry `jm` survives the whole purge loop run over
the snapshot `todo`: every iteration either sees a visible point or keys
a different id. -/
def survives (env : Env) (s e : Int) (todo : List (Nat × PointMarker))
    (jm : Nat × PointMarker) : Bool :=
  todo.all (fun im => env.isVisible im.2.point s e || decide (jm.1 ≠ im.2.point.id))

theorem foldl_removeInvisibleStep_pointMarkers (env : Env) (s e : Int) :
    ∀ (todo : List (Nat × PointMarker)) (acc : LayerState),
      (todo.foldl (removeInvisibleStep env s e) acc).pointMarkers =
        acc.pointMarkers.filter (survives env s e todo) := by
  intro todo
  induction todo with
  | nil =>
    intro acc
    simp only [List.foldl_nil]
    exact ((List.filter_congr (fun x _ => rfl)).trans (List.filter_true _)).symm
  | cons im todo ih =>
    intro acc
    rw [List.foldl_cons, ih]
    cases hv : env.isVisible im.2.point s e with
    | true =>
      have hstep : removeInvisibleStep env s e acc im = acc := by
        simp [removeInvisibleStep, hv]
      rw [hstep]
      refine List.filter_congr ?_
      intro jm _
      simp [survives, List.all_cons, hv]
    | false =>
      have hstep : (removeInvisibleStep env s e acc im).pointMarkers =
          acc.pointMarkers.filter (fun jm => decide (jm.1 ≠ im.2.point.id)) := by
        unfold removeInvisibleStep
        rw [hv]
        simp only [Bool.false_eq_true, if_false]
        rw [removePoint_pointMarkers, mapErase_eq_filter]
      rw [hstep, List.filter_filter]
      refine List.filter_congr ?_
      intro jm _
      simp [survives, List.all_cons, hv, Bool.and_comm]

theorem entry_eq_of_keys_nodup (l : List (Nat × PointMarker))
    (hnd : (l.map Prod.fst).Nodup) (a b : Nat × PointMarker)
    (ha : a ∈ l) (hb : b ∈ l) (h : a.1 = b.1) : a = b := by
  have h1 := mapLookup_eq_of_mem_nodup l hnd a ha
  have h2 := mapLookup_eq_of_mem_nodup l hnd b hb
  rw [h] at h1
  rw [h1] at h2
  obtain ⟨a1, a2⟩ := a
  obtain ⟨b1, b2⟩ := b
  simp at h ⊢
  exact ⟨h, Option.some_inj.mp h2⟩

theorem removeInvisiblePoints_pointMarkers (env : Env) (st : LayerState)
    (s e : Int) (hnd : (st.pointMarkers.map Prod.fst).Nodup)
    (hkey : keyInv st.pointMarkers) :
    (removeInvisiblePoints env st s e).pointMarkers =
      st.pointMarkers.filter (fun im => env.isVisible im.2.point s e) := by
  rw [removeInvisiblePoints, foldl_removeInvisibleStep_pointMarkers]
  refine List.filter_congr ?_
  intro jm hjm
  cases hv : env.isVisible jm.2.point s e with
  | true =>
    rw [survives, List.all_eq_true]
    intro im him
    cases hvi : env.isVisible im.2.point s e with
    | true => rfl
    | false =>
      simp only [Bool.false_or]
      have hne : jm.1 ≠ im.2.point.id := by
        rw [hkey im him]
        intro heq
        have heq2 := entry_eq_of_keys_nodup _ hnd jm im hjm him heq
        rw [heq2, hvi] at hv
        exact Bool.false_ne_true hv
      simp [hne]
  | false =>
    have hall : survives env s e st.pointMarkers jm ≠ true := by
      intro hall
      have := List.all_eq_true.mp hall jm hjm
      rw [hv, hkey jm hjm] at this
      simp at this
    exact Bool.not_eq_true _ ▸ (Bool.eq_false_iff.mpr hall)

theorem removeInvisiblePoints_eq_self (env : Env) (s e : Int) :
    ∀ (todo : List (Nat × PointMarker)) (acc : LayerState),
      (∀ im ∈ todo, env.isVisible im.2.point s e = true) →
      todo.foldl (removeInvisibleStep env s e) acc = acc := by
  intro todo
  induction todo with
  | nil => intro acc _; rfl
  | cons im todo ih =>
    intro acc h
    rw [List.foldl_cons]
    have hstep : removeInvisibleStep env s e acc im = acc := by
      simp [removeInvisibleStep, h im (List.mem_cons_self im todo)]
    rw [hstep]
    exact ih acc (fun jm hjm => h jm (List.mem_cons_of_mem im hjm))

theorem mapLookup_filter_none (l : List (Nat × PointMarker))
    (q : Nat × PointMarker → Bool) (i : Nat) (h : mapLookup l i = none) :
    mapLookup (l.filter q) i = none := by
  have h1 : i ∉ l.map Prod.fst := by
    rw [mem_keys_iff_lookup_isSome, h]
    simp
  have h2 : i ∉ (l.filter q).map Prod.fst := by
    intro hmem
    exact h1 (((List.filter_sublist l).map Prod.fst).mem hmem)
  rw [mem_keys_iff_lookup_isSome] at h2
  cases hl : mapLookup (l.filter q) i with
  | none => rfl
  | some m => rw [hl] at h2; simp at h2

theorem mapLookup_filter_some (l : List (Nat × PointMarker))
    (hnd : (l.map Prod.fst).Nodup) (q : Nat × PointMarker → Bool) (i : Nat)
    (m : PointMarker) (h : mapLookup l i = some m) :
    mapLookup (l.filter q) i = if q (i, m) then some m else none := by
  induction l with
  | nil => simp [mapLookup] at h
  | cons hd tl ih =>
    obtain ⟨k, mk⟩ := hd
    simp only [List.map_cons, List.nodup_cons] at hnd
    by_cases hk : k = i
    · subst hk
      simp only [mapLookup_cons, if_pos rfl] at h
      have hm : mk = m := Option.some_inj.mp h
      subst hm
      have htl : mapLookup tl k = none := by
        cases hl : mapLookup tl k with
        | none => rfl
        | some m2 =>
          exact absurd ((mem_keys_iff_lookup_isSome tl k).mpr (by rw [hl]; rfl))
            hnd.1
      rw [List.filter_cons]
      cases hq : q (k, mk) with
      | true => simp [hq]
      | false =>
        simp only [hq, Bool.false_eq_true, if_false]
        exact mapLookup_filter_none tl q k htl
    · simp only [mapLookup_cons, hk, if_false] at h
      rw [List.filter_cons]
      cases hq : q (k, mk) with
      | true =>
        rw [if_pos rfl]
        simp only [mapLookup_cons, hk, if_false]
        exact ih hnd.2 h
      | false =>
        simp only [hq, Bool.false_eq_true, if_false]
        exact ih hnd.2 h

/-! ## `updatePoints` as a whole, and its fixpoint behaviour -/

theorem updatePoints_def (env : Env) (st : LayerState) (s e : Int) :
    updatePoints env st s e =
      removeInvisiblePoints env ((env.find s e).foldl (updatePoint env) st) s e := rfl

theorem marker_setX_self (m : PointMarker) (x : Int) (h : m.x = x) :
    { m with x := x } = m := by
  cases m
  subst h
  rfl

theorem setMarkerX_eq_self (l : List (Nat × PointMarker)) (i : Nat) (x : Int)
    (h : ∀ im ∈ l, im.1 = i → im.2.x = x) : setMarkerX l i x = l := by
  induction l with
  | nil => rfl
  | cons hd tl ih =>
    simp only [setMarkerX, List.map_cons] at ih ⊢
    have htl : tl.map (fun im => if im.1 = i then (im.1, { im.2 with x := x }) else im) = tl :=
      ih (fun im him hi => h im (List.mem_cons_of_mem hd him) hi)
    rw [htl]
    by_cases hhd : hd.1 = i
    · rw [if_pos hhd, marker_setX_self hd.2 x (h hd (List.mem_cons_self hd tl) hhd)]
    · rw [if_neg hhd]

theorem updatePoint_eq_self (env : Env) (st : LayerState) (p : Point)
    (m : PointMarker) (hm : mapLookup st.pointMarkers p.id = some m)
    (hx : m.x = env.timeToPixels p.time - env.frameOffset)
    (hnd : (st.pointMarkers.map Prod.fst).Nodup) :
    updatePoint env st p = st := by
  unfold updatePoint findOrAddPointMarker
  rw [hm]
  have hself : setMarkerX st.pointMarkers p.id
      (env.timeToPixels p.time - env.frameOffset) = st.pointMarkers := by
    apply setMarkerX_eq_self
    intro im him hi
    have hlk := mapLookup_eq_of_mem_nodup st.pointMarkers hnd im him
    rw [hi, hm] at hlk
    rw [← Option.some_inj.mp hlk]
    exact hx
  simp only [hself]

theorem foldl_updatePoint_eq_self (env : Env) (ps : List Point) (st : LayerState)
    (hnd : (st.pointMarkers.map Prod.fst).Nodup)
    (h : ∀ p ∈ ps, ∃ m, mapLookup st.pointMarkers p.id = some m ∧
      m.x = env.timeToPixels p.time - env.frameOffset) :
    ps.foldl (updatePoint env) st = st := by
  induction ps with
  | nil => rfl
  | cons p rest ih =>
    rw [List.foldl_cons]
    obtain ⟨m, hm, hx⟩ := h p (List.mem_cons_self p rest)
    rw [updatePoint_eq_self env st p m hm hx hnd]
    exact ih (fun q hq => h q (List.mem_cons_of_mem p hq))

/-- After `updatePoints`, the marker of every point returned by `find`
carries that point and sits at `timeToPixels(point.time) - frameOffset`.
Shared workhorse for the position-correctness and idempotence claims. -/
theorem position_after_updatePoints (env : Env) (st : LayerState) (s e : Int)
    (hnd : (st.pointMarkers.map Prod.fst).Nodup)
    (hkey : keyInv st.pointMarkers)
    (hsound : ∀ p ∈ env.find s e, env.isVisible p s e = true)
    (halias : ∀ p ∈ env.find s e, ∀ im ∈ st.pointMarkers,
      im.1 = p.id → im.2.point = p)
    (hfindnd : ((env.find s e).map Point.id).Nodup) :
    ∀ p ∈ env.find s e, ∃ m,
      mapLookup (updatePoints env st s e).pointMarkers p.id = some m ∧
      m.point = p ∧ m.x = env.timeToPixels p.time - env.frameOffset := by
  intro p hp
  have hst : ∀ m0, mapLookup st.pointMarkers p.id = some m0 → m0.point = p := by
    intro m0 hm0
    exact halias p hp (p.id, m0) (mapLookup_mem _ _ _ hm0) rfl
  obtain ⟨m, hm, hpt, hx⟩ :=
    x_correct_foldl_updatePoint env (env.find s e) st p hp hfindnd hst
  have hnd1 := nodup_keys_foldl_updatePoint env (env.find s e) st hnd
  have hkey1 := keyInv_foldl_updatePoint env (env.find s e) st hkey
  refine ⟨m, ?_, hpt, hx⟩
  rw [updatePoints_def, removeInvisiblePoints_pointMarkers env _ s e hnd1 hkey1]
  rw [mapLookup_filter_some _ hnd1 _ p.id m hm]
  have hv : env.isVisible m.point s e = true := by
    rw [hpt]
    exact hsound p hp
  simp [hv]

theorem nodup_keys_updatePoints (env : Env) (st : LayerState) (s e : Int)
    (hnd : (st.pointMarkers.map Prod.fst).Nodup) :
    ((updatePoints env st s e).pointMarkers.map Prod.fst).Nodup := by
  have hnd1 := nodup_keys_foldl_updatePoint env (env.find s e) st hnd
  rw [updatePoints_def, removeInvisiblePoints, foldl_removeInvisibleStep_pointMarkers]
  exact ((List.filter_sublist _).map Prod.fst).nodup hnd1

/-! ## Claim theorems -/

/-- C1 (visibility equivalence): for any window `(s, e)` and any store
content in which `find(s, e)` returns exactly the points whose
`isVisible(s, e)` holds (soundness `hsound` and completeness `hcomplete`
over the points the layer can reach), with the registry well formed
(unique keys `hnd`, markers keyed by their point's id `hkey`, and each
registered marker holding the store's point object for its id `halias`,
as JS aliasing guarantees), after `updatePoints(s, e)` the registry's key
set equals exactly the set of ids of the visible points. -/
theorem updatePoints_registry_eq_visible (env : Env) (st : LayerState)
    (s e : Int)
    (hnd : (st.pointMarkers.map Prod.fst).Nodup)
    (hkey : keyInv st.pointMarkers)
    (hsound : ∀ p ∈ env.find s e, env.isVisible p s e = true)
    (hcomplete : ∀ im ∈ st.pointMarkers, env.isVisible im.2.point s e = true →
      im.2.point ∈ env.find s e)
    (halias : ∀ p ∈ env.find s e, ∀ im ∈ st.pointMarkers,
      im.1 = p.id → im.2.point = p)
    (i : Nat) :
    i ∈ registryKeys (updatePoints env st s e) ↔
      i ∈ (env.find s e).map Point.id := by
  have hnd1 := nodup_keys_foldl_updatePoint env (env.find s e) st hnd
  have hkey1 := keyInv_foldl_updatePoint env (env.find s e) st hkey
  simp only [registryKeys, updatePoints_def,
    removeInvisiblePoints_pointMarkers env _ s e hnd1 hkey1]
  constructor
  · intro hmem
    obtain ⟨im, him, hid⟩ := List.mem_map.mp hmem
    obtain ⟨him1, hvis⟩ := List.mem_filter.mp him
    have hlk := mapLookup_eq_of_mem_nodup _ hnd1 im him1
    rcases point_source_foldl_updatePoint env (env.find s e) st im.1 im.2 hlk with
      ⟨m0, hl0, hpt⟩ | ⟨hin, hid2⟩
    · have hm0mem := mapLookup_mem _ _ _ hl0
      have hm0id : m0.point.id = im.1 := hkey (im.1, m0) hm0mem
      have hv0 : env.isVisible m0.point s e = true := by
        rw [← hpt]
        exact hvis
      exact List.mem_map.mpr ⟨m0.point, hcomplete (im.1, m0) hm0mem hv0,
        by rw [hm0id, hid]⟩
    · exact List.mem_map.mpr ⟨im.2.point, hin, by rw [hid2, hid]⟩
  · intro hmem
    obtain ⟨p, hp, hpid⟩ := List.mem_map.mp hmem
    subst hpid
    have hsome := mapLookup_foldl_updatePoint_isSome_of_mem env (env.find s e)
      st p.id (List.mem_map.mpr ⟨p, hp, rfl⟩)
    obtain ⟨m, hm⟩ := Option.isSome_iff_exists.mp hsome
    have hv : env.isVisible m.point s e = true := by
      rcases point_source_foldl_updatePoint env (env.find s e) st p.id m hm with
        ⟨m0, hl0, hpt⟩ | ⟨hin, _⟩
      · have halias0 : m0.point = p :=
          halias p hp (p.id, m0) (mapLookup_mem _ _ _ hl0) rfl
        rw [hpt, halias0]
        exact hsound p hp
      · exact hsound m.point hin
    rw [mem_keys_iff_lookup_isSome, mapLookup_filter_some _ hnd1 _ p.id m hm]
    simp [hv]

/-- C2 (idempotence): under the same store/registry premises as C1 (plus
unique point ids in the `find` result), a second `updatePoints` with the
same window and unchanged store content is the identity: the resulting
state — registry, Konva children, drag session, and the append-only
creation/destruction log — is exactly the state after the first call, so
the second call constructs and destroys no marker. -/
theorem updatePoints_idempotent (env : Env) (st : LayerState) (s e : Int)
    (hnd : (st.pointMarkers.map Prod.fst).Nodup)
    (hkey : keyInv st.pointMarkers)
    (hsound : ∀ p ∈ env.find s e, env.isVisible p s e = true)
    (halias : ∀ p ∈ env.find s e, ∀ im ∈ st.pointMarkers,
      im.1 = p.id → im.2.point = p)
    (hfindnd : ((env.find s e).map Point.id).Nodup) :
    updatePoints env (updatePoints env st s e) s e = updatePoints env st s e := by
  have hnd1 := nodup_keys_foldl_updatePoint env (env.find s e) st hnd
  have hkey1 := keyInv_foldl_updatePoint env (env.find s e) st hkey
  have h2nd := nodup_keys_updatePoints env st s e hnd
  have hall : ∀ im ∈ (updatePoints env st s e).pointMarkers,
      env.isVisible im.2.point s e = true := by
    intro im him
    rw [updatePoints_def,
      removeInvisiblePoints_pointMarkers env _ s e hnd1 hkey1] at him
    exact (List.mem_filter.mp him).2
  have hx : ∀ p ∈ env.find s e, ∃ m,
      mapLookup (updatePoints env st s e).pointMarkers p.id = some m ∧
      m.x = env.timeToPixels p.time - env.frameOffset := by
    intro p hp
    obtain ⟨m, hm, _, hmx⟩ := position_after_updatePoints env st s e hnd hkey
      hsound halias hfindnd p hp
    exact ⟨m, hm, hmx⟩
  rw [updatePoints_def env (updatePoints env st s e) s e,
    foldl_updatePoint_eq_self env (env.find s e) (updatePoints env st s e) h2nd hx]
  exact removeInvisiblePoints_eq_self env s e
    (updatePoints env st s e).pointMarkers (updatePoints env st s e) hall

/-- C3 (position correctness): under the C1 premises on the store and
registry (with unique point ids in the `find` result), after
`updatePoints(s, e)` every point returned by `find(s, e)` has a
registered marker, and that marker's x position equals
`timeToPixels(point.time) - frameOffset` — no visible marker's position
is stale after the pass. -/
theorem updatePoints_position_correct (env : Env) (st : LayerState) (s e : Int)
    (hnd : (st.pointMarkers.map Prod.fst).Nodup)
    (hkey : keyInv st.pointMarkers)
    (hsound : ∀ p ∈ env.find s e, env.isVisible p s e = true)
    (halias : ∀ p ∈ env.find s e, ∀ im ∈ st.pointMarkers,
      im.1 = p.id → im.2.point = p)
    (hfindnd : ((env.find s e).map Point.id).Nodup) :
    ∀ p ∈ env.find s e,
      (mapLookup (updatePoints env st s e).pointMarkers p.id).map
        (fun m => m.x) = some (env.timeToPixels p.time - env.frameOffset) := by
  intro p hp
  obtain ⟨m, hm, _, hmx⟩ := position_after_updatePoints env st s e hnd hkey
    hsound halias hfindnd p hp
  rw [hm]
  simp [hmx]

theorem clamp_eq_self (x lo hi : Int) (h0 : lo ≤ x) (h1 : x ≤ hi) :
    clamp x lo hi = x := by
  unfold clamp
  rw [if_neg (by omega), if_neg (by omega)]

/-- C4 (drag round-trip): every drag-move handler invocation writes
`pixelOffsetToTime(markerX + markerWidth)` (the marker's current
rightmost edge converted back to a time) onto the point through
`_setTime`, and updates the marker's time label to that time; hence
starting a drag on `p`, moving the pointer to pixel `x` inside the view
(Konva moves the marker there through the drag bound function), and
ending the drag leaves `point.time = pixelOffsetToTime(x + markerWidth)`
with the marker's label equal to it. -/
theorem dragMove_roundTrip (env : Env) (st : LayerState) (p : Point) (x : Int)
    (m : PointMarker) (hm : mapLookup st.pointMarkers p.id = some m)
    (h0 : 0 ≤ x) (hw : x ≤ env.width) :
    (∀ (st0 : LayerState) (m0 : PointMarker),
      mapLookup st0.pointMarkers p.id = some m0 →
      (onPointHandleDragMove env st0 p).map (fun r => r.2.time) =
        some (env.pixelOffsetToTime (m0.x + m0.width)) ∧
      (onPointHandleDragMove env st0 p).map (fun r => mapLookup r.1.pointMarkers p.id) =
        some (some { m0 with
          timeLabel := env.pixelOffsetToTime (m0.x + m0.width) })) ∧
    ((onPointHandleDragMove env
        (dragMarkerTo env (onPointHandleDragStart st p) p.id x) p).map
        (fun r => r.2.time) = some (env.pixelOffsetToTime (x + m.width))) ∧
    ((onPointHandleDragMove env
        (dragMarkerTo env (onPointHandleDragStart st p) p.id x) p).map
        (fun r => (mapLookup (onPointHandleDragEnd r.1).pointMarkers p.id).map
          PointMarker.timeLabel) =
      some (some (env.pixelOffsetToTime (x + m.width)))) := by
  have hmove : ∀ (st0 : LayerState) (m0 : PointMarker),
      mapLookup st0.pointMarkers p.id = some m0 →
      onPointHandleDragMove env st0 p =
        some ({ st0 with pointMarkers := (mapInsert st0.pointMarkers p.id { m0 with timeLabel := env.pixelOffsetToTime (m0.x + m0.width) }) },
          { p with time := env.pixelOffsetToTime (m0.x + m0.width) }) := by
    intro st0 m0 hm0
    unfold onPointHandleDragMove
    rw [hm0]
  have hpart1 : ∀ (st0 : LayerState) (m0 : PointMarker),
      mapLookup st0.pointMarkers p.id = some m0 →
      (onPointHandleDragMove env st0 p).map (fun r => r.2.time) =
        some (env.pixelOffsetToTime (m0.x + m0.width)) ∧
      (onPointHandleDragMove env st0 p).map (fun r => mapLookup r.1.pointMarkers p.id) =
        some (some { m0 with
          timeLabel := env.pixelOffsetToTime (m0.x + m0.width) }) := by
    intro st0 m0 hm0
    rw [hmove st0 m0 hm0]
    constructor
    · rfl
    · simp [mapLookup_mapInsert]
  have hcl : pointHandleDragBoundFuncX env x = x := by
    unfold pointHandleDragBoundFuncX
    exact clamp_eq_self x 0 env.width h0 hw
  have hst2 : mapLookup
      (dragMarkerTo env (onPointHandleDragStart st p) p.id x).pointMarkers p.id =
      some { m with x := x } := by
    show mapLookup (setMarkerX st.pointMarkers p.id
      (pointHandleDragBoundFuncX env x)) p.id = some { m with x := x }
    rw [hcl, mapLookup_setMarkerX, if_pos rfl, hm]
    rfl
  refine ⟨hpart1, ?_, ?_⟩
  · rw [hmove _ _ hst2]
    rfl
  · rw [hmove _ _ hst2]
    simp [onPointHandleDragEnd, mapLookup_mapInsert]

/-- C5 (amended): handling `points.remove_all` empties the registry and
detaches every node from the Konva layer in one step, but destroys no
marker: the lifecycle log is untouched (the code calls `removeChildren`,
which detaches without destroying, and never calls the markers'
`destroy`). -/
theorem removeAll_clears_registry_and_layer (st : LayerState) :
    (onPointsRemoveAll st).pointMarkers = [] ∧
    (onPointsRemoveAll st).layerChildren = [] ∧
    (onPointsRemoveAll st).events = st.events :=
  ⟨rfl, rfl, rfl⟩

/-- C6 (update reconciliation): `points.update` for `p` first deletes any
registered marker for `p.id`, then adds a fresh marker (a new
construction, logged) exactly when `p` is visible in the view's current
window, then runs a full `updatePoints` pass over that window; updating a
point with no registered marker is the same operation as `points.add`
with `[p]`. -/
theorem onPointsUpdate_reconcile (env : Env) (st : LayerState) (p : Point) :
    mapLookup (removePoint st p).pointMarkers p.id = none ∧
    (env.isVisible p env.startTime env.endTime = true →
      onPointsUpdate env st p =
        updatePoints env (addPointMarker env (removePoint st p) p).1
          env.startTime env.endTime ∧
      (addPointMarker env (removePoint st p) p).1.events =
        (removePoint st p).events ++ [MarkerEvent.created p.id]) ∧
    (env.isVisible p env.startTime env.endTime = false →
      onPointsUpdate env st p =
        updatePoints env (removePoint st p) env.startTime env.endTime) ∧
    (mapLookup st.pointMarkers p.id = none →
      onPointsUpdate env st p = onPointsAdd env st [p]) := by
  refine ⟨?_, ?_, ?_, ?_⟩
  · rw [removePoint_pointMarkers, mapLookup_mapErase, if_pos rfl]
  · intro hv
    constructor
    · simp [onPointsUpdate, hv]
    · rfl
  · intro hv
    simp [onPointsUpdate, hv]
  · intro habsent
    have hrp : removePoint st p = st := by
      unfold removePoint
      rw [habsent]
    simp [onPointsUpdate, onPointsAdd, hrp]

/-- C7 (marker styling and editability): a created marker's color is the
point's own color when set (non-empty), otherwise the global
`pointMarkerColor`; its font family, size and style are the host options
when set (truthy), otherwise exactly `sans-serif`, `10` and `normal`;
and it is draggable exactly when both the layer's editing flag and
`point.editable` hold, so a disabled global flag always overrides a
point-level allowance. -/
theorem createPointMarker_styling (env : Env) (allowEditing : Bool) (p : Point) :
    ((createPointMarker env allowEditing p).draggable =
      (allowEditing && p.editable)) ∧
    (p.color = none →
      (createPointMarker env allowEditing p).color =
        env.options.pointMarkerColor) ∧
    (∀ c, p.color = some c → c ≠ "" →
      (createPointMarker env allowEditing p).color = c) ∧
    (env.options.fontFamily = none →
      (createPointMarker env allowEditing p).fontFamily = "sans-serif") ∧
    (∀ f, env.options.fontFamily = some f → f ≠ "" →
      (createPointMarker env allowEditing p).fontFamily = f) ∧
    (env.options.fontSize = none →
      (createPointMarker env allowEditing p).fontSize = 10) ∧
    (∀ n, env.options.fontSize = some n → n ≠ 0 →
      (createPointMarker env allowEditing p).fontSize = n) ∧
    (env.options.fontStyle = none →
      (createPointMarker env allowEditing p).fontStyle = "normal") ∧
    (∀ f, env.options.fontStyle = some f → f ≠ "" →
      (createPointMarker env allowEditing p).fontStyle = f) := by
  refine ⟨rfl, ?_, ?_, ?_, ?_, ?_, ?_, ?_, ?_⟩
  · intro h
    simp [createPointMarker, jsOrStr, h]
  · intro c hc hne
    simp [createPointMarker, jsOrStr, hc, hne]
  · intro h
    simp [createPointMarker, jsOrStr, h, defaultFontFamily]
  · intro f hf hne
    simp [createPointMarker, jsOrStr, hf, hne]
  · intro h
    simp [createPointMarker, jsOrNat, h, defaultFontSize]
  · intro n hn hne
    simp [createPointMarker, jsOrNat, hn, hne]
  · intro h
    simp [createPointMarker, jsOrStr, h, defaultFontShape]
  · intro f hf hne
    simp [createPointMarker, jsOrStr, hf, hne]

/-- C8 (defensive removal): removing a point with no registered marker —
directly or through a `points.remove` batch — is a silent no-op leaving
the whole state untouched; removing a point with a marker destroys
exactly that marker (logged) and deletes exactly its key, leaving every
other registry entry as it was. -/
theorem removePoint_silent_noop (st : LayerState) (p : Point) :
    (mapLookup st.pointMarkers p.id = none → removePoint st p = st) ∧
    (∀ m, mapLookup st.pointMarkers p.id = some m →
      (removePoint st p).pointMarkers = mapErase st.pointMarkers p.id ∧
      (removePoint st p).events = st.events ++ [MarkerEvent.destroyed p.id] ∧
      mapLookup (removePoint st p).pointMarkers p.id = none ∧
      (∀ j, j ≠ p.id →
        mapLookup (removePoint st p).pointMarkers j =
          mapLookup st.pointMarkers j)) ∧
    (∀ ps : List Point, (∀ q ∈ ps, mapLookup st.pointMarkers q.id = none) →
      onPointsRemove st ps = st) := by
  refine ⟨?_, ?_, ?_⟩
  · intro h
    unfold removePoint
    rw [h]
  · intro m hm
    refine ⟨removePoint_pointMarkers st p, ?_, ?_, ?_⟩
    · unfold removePoint
      rw [hm]
    · rw [removePoint_pointMarkers, mapLookup_mapErase, if_pos rfl]
    · intro j hj
      rw [removePoint_pointMarkers, mapLookup_mapErase,
        if_neg (fun h2 => hj h2.symm)]
  · intro ps hps
    unfold onPointsRemove
    induction ps with
    | nil => rfl
    | cons q rest ih =>
      rw [List.foldl_cons]
      have hq : removePoint st q = st := by
        unfold removePoint
        rw [hps q (List.mem_cons_self q rest)]
      rw [hq]
      exact ih (fun r hr => hps r (List.mem_cons_of_mem q hr))

/-- C9 (single drag session): the active drag session is an `Option` and
hence references at most one marker; drag-start sets it to the started
point's registered marker, drag-end clears it, and every other operation
of the layer — `updatePoints`, the `points.update/add/remove/remove_all`
handlers, the cross-view drag handler, and the drag-move handler —
leaves it unchanged. -/
theorem dragSession_invariant (env : Env) (st : LayerState) (p : Point)
    (ps : List Point) (s e : Int) :
    (onPointHandleDragStart st p).dragPointMarker =
      mapLookup st.pointMarkers p.id ∧
    (onPointHandleDragEnd st).dragPointMarker = none ∧
    (updatePoints env st s e).dragPointMarker = st.dragPointMarker ∧
    (onPointsUpdate env st p).dragPointMarker = st.dragPointMarker ∧
    (onPointsAdd env st ps).dragPointMarker = st.dragPointMarker ∧
    (onPointsRemove st ps).dragPointMarker = st.dragPointMarker ∧
    (onPointsRemoveAll st).dragPointMarker = st.dragPointMarker ∧
    (onPointsDrag env st p).dragPointMarker = st.dragPointMarker ∧
    (∀ (st1 : LayerState) (p1 : Point),
      onPointHandleDragMove env st p = some (st1, p1) →
      st1.dragPointMarker = st.dragPointMarker) := by
  refine ⟨rfl, rfl, updatePoints_dragPointMarker env st s e, ?_, ?_, ?_, rfl,
    updatePoint_dragPointMarker env st p, ?_⟩
  · unfold onPointsUpdate
    rw [updatePoints_dragPointMarker]
    split
    · exact removePoint_dragPointMarker st p
    · exact removePoint_dragPointMarker st p
  · unfold onPointsAdd
    rw [updatePoints_dragPointMarker]
    refine foldl_dragPointMarker _ ?_ ps st
    intro st0 q
    split <;> rfl
  · exact foldl_dragPointMarker removePoint removePoint_dragPointMarker ps st
  · intro st1 p1 h
    unfold onPointHandleDragMove at h
    cases hm : mapLookup st.pointMarkers p.id with
    | none => rw [hm] at h; exact absurd h (by simp)
    | some m =>
      rw [hm] at h
      simp only [Option.some_inj] at h
      injection h with h1 h2
      subst h1
      rfl

/-- C10 (cross-view drag creates without a visibility check): when a
cross-view `points.dragstart/dragmove/dragend` notification arrives for a
point `p` with no registered marker, the handler creates a marker for `p`
and positions it at `timeToPixels(p.time) - frameOffset` even when `p` is
not visible in the window `(s, e)`; the marker persists in the registry
until the next `updatePoints(s, e)` pass, which removes it. -/
theorem onPointsDrag_ignores_visibility (env : Env) (st : LayerState)
    (p : Point) (s e : Int)
    (habsent : mapLookup st.pointMarkers p.id = none)
    (hinvis : env.isVisible p s e = false)
    (hnd : (st.pointMarkers.map Prod.fst).Nodup)
    (hkey : keyInv st.pointMarkers) :
    mapLookup (onPointsDrag env st p).pointMarkers p.id =
      some { createPointMarker env st.allowEditing p with
              x := env.timeToPixels p.time - env.frameOffset } ∧
    (onPointsDrag env st p).events = st.events ++ [MarkerEvent.created p.id] ∧
    mapLookup (updatePoints env (onPointsDrag env st p) s e).pointMarkers
      p.id = none := by
  refine ⟨mapLookup_updatePoint_self_none env st p habsent, ?_, ?_⟩
  · unfold onPointsDrag updatePoint findOrAddPointMarker
    rw [habsent]
    rfl
  · have hm1 := mapLookup_updatePoint_self_none env st p habsent
    have hnd2 : ((onPointsDrag env st p).pointMarkers.map Prod.fst).Nodup :=
      nodup_keys_updatePoint env st p hnd
    have hkey2 : keyInv (onPointsDrag env st p).pointMarkers :=
      keyInv_updatePoint env st p hkey
    have hnd3 := nodup_keys_foldl_updatePoint env (env.find s e)
      (onPointsDrag env st p) hnd2
    have hkey3 := keyInv_foldl_updatePoint env (env.find s e)
      (onPointsDrag env st p) hkey2
    obtain ⟨m2, hm2, hpt2⟩ := point_preserved_foldl_updatePoint env
      (env.find s e) (onPointsDrag env st p) p.id _ hm1
    rw [updatePoints_def, removeInvisiblePoints_pointMarkers env _ s e hnd3 hkey3,
      mapLookup_filter_some _ hnd3 _ p.id m2 hm2]
    have hv : env.isVisible m2.point s e = false := by
      rw [hpt2]
      exact hinvis
    simp [hv]

/-! ## Concrete instances -/

/-- A host options object with no font configuration. -/
def wOptions : Options :=
  { pointMarkerColor := "#ff0000", fontFamily := none, fontSize := none,
    fontStyle := none }

/-- A host options object with every font option configured. -/
def wOptionsSet : Options :=
  { pointMarkerColor := "#ff0000", fontFamily := some "Arial",
    fontSize := some 12, fontStyle := some "italic" }

/-- An editable point without a color, at 2 s. -/
def wPoint1 : Point := { id := 1, time := 2, editable := true, color := none }

/-- A non-editable blue point at 8 s. -/
def wPoint2 : Point := { id := 2, time := 8, editable := false, color := some "blue" }

/-- An editable point far outside the sample window, at 20 s. -/
def wPoint3 : Point := { id := 3, time := 20, editable := true, color := none }

/-- A two-point store. -/
def wStorePoints : List Point := [wPoint1, wPoint2]

/-- A concrete environment: a store of two points, the half-open
visibility rule `s ≤ time < e`, a consistent `find`, a view over
`[0 s, 6 s]` at 10 px/s with a 3 px frame offset and a 100 px width,
and 5 px wide markers. -/
def wEnv : Env :=
  { find := fun s e => wStorePoints.filter
      (fun p => decide (s ≤ p.time) && decide (p.time < e))
    isVisible := fun p s e => decide (s ≤ p.time) && decide (p.time < e)
    startTime := 0
    endTime := 6
    timeToPixels := fun t => t * 10
    pixelOffsetToTime := fun px => px / 10
    frameOffset := 3
    width := 100
    markerWidth := fun _ => 5
    options := wOptions }

/-- The same environment with every font option configured. -/
def wEnvSet : Env := { wEnv with options := wOptionsSet }

/-- A freshly constructed layer state: empty registry, editing enabled. -/
def wState : LayerState :=
  { pointMarkers := [], layerChildren := [], dragPointMarker := none,
    allowEditing := true, events := [] }

/-- A marker for `wPoint2` sitting at x = 50. -/
def wMarker : PointMarker :=
  { point := wPoint2, draggable := false, color := "blue",
    fontFamily := "sans-serif", fontSize := 10, fontStyle := "normal",
    x := 50, width := 5, timeLabel := 8 }

/-- A layer state whose registry holds the single marker `wMarker`
under key 2. -/
def wStateM : LayerState :=
  { pointMarkers := [(2, wMarker)], layerChildren := [2],
    dragPointMarker := none, allowEditing := true, events := [] }

theorem keyInv_nil : keyInv [] :=
  fun im him => absurd him (List.not_mem_nil im)

theorem keyInv_wStateM : keyInv wStateM.pointMarkers := by
  intro im him
  have h := List.mem_singleton.mp him
  subst h
  rfl

/-! ## Witnesses and counterexamples -/

/-- Witness for C1 at the concrete store and an empty registry. -/
theorem updatePoints_registry_eq_visible_witness :
    ((wState.pointMarkers.map Prod.fst).Nodup ∧
      (∀ p ∈ wEnv.find 0 6, wEnv.isVisible p 0 6 = true)) ∧
    (1 ∈ registryKeys (updatePoints wEnv wState 0 6) ↔
      1 ∈ (wEnv.find 0 6).map Point.id) :=
  ⟨⟨by decide, by decide⟩,
    updatePoints_registry_eq_visible wEnv wState 0 6 (by decide) keyInv_nil
      (by decide) (fun im him => absurd him (List.not_mem_nil im))
      (fun p hp im him => absurd him (List.not_mem_nil im)) 1⟩

/-- Witness for C2 at the concrete store and an empty registry. -/
theorem updatePoints_idempotent_witness :
    (((wEnv.find 0 6).map Point.id).Nodup ∧
      (∀ p ∈ wEnv.find 0 6, wEnv.isVisible p 0 6 = true)) ∧
    updatePoints wEnv (updatePoints wEnv wState 0 6) 0 6 =
      updatePoints wEnv wState 0 6 :=
  ⟨⟨by decide, by decide⟩,
    updatePoints_idempotent wEnv wState 0 6 (by decide) keyInv_nil (by decide)
      (fun p hp im him => absurd him (List.not_mem_nil im)) (by decide)⟩

/-- Witness for C3 at the concrete store: the marker for the visible
point `wPoint1` sits at `2 * 10 - 3 = 17`. -/
theorem updatePoints_position_correct_witness :
    wPoint1 ∈ wEnv.find 0 6 ∧
    (mapLookup (updatePoints wEnv wState 0 6).pointMarkers wPoint1.id).map
      (fun m => m.x) =
      some (wEnv.timeToPixels wPoint1.time - wEnv.frameOffset) :=
  ⟨by decide,
    updatePoints_position_correct wEnv wState 0 6 (by decide) keyInv_nil
      (by decide) (fun p hp im him => absurd him (List.not_mem_nil im))
      (by decide) wPoint1 (by decide)⟩

/-- Witness for C4: dragging `wPoint2`'s marker to pixel 40 writes
`pixelOffsetToTime(40 + 5)` onto the point and its label. -/
theorem dragMove_roundTrip_witness :
    (mapLookup wStateM.pointMarkers wPoint2.id = some wMarker ∧
      (0 : Int) ≤ 40 ∧ (40 : Int) ≤ wEnv.width) ∧
    ((onPointHandleDragMove wEnv
        (dragMarkerTo wEnv (onPointHandleDragStart wStateM wPoint2)
          wPoint2.id 40) wPoint2).map (fun r => r.2.time) =
      some (wEnv.pixelOffsetToTime (40 + wMarker.width))) ∧
    ((onPointHandleDragMove wEnv
        (dragMarkerTo wEnv (onPointHandleDragStart wStateM wPoint2)
          wPoint2.id 40) wPoint2).map
        (fun r => (mapLookup (onPointHandleDragEnd r.1).pointMarkers
          wPoint2.id).map PointMarker.timeLabel) =
      some (some (wEnv.pixelOffsetToTime (40 + wMarker.width)))) :=
  ⟨⟨by decide, by decide, by decide⟩,
    (dragMove_roundTrip wEnv wStateM wPoint2 40 wMarker (by decide) (by decide)
      (by decide)).2.1,
    (dragMove_roundTrip wEnv wStateM wPoint2 40 wMarker (by decide) (by decide)
      (by decide)).2.2⟩

/-- Counterexample for C5 as stated: from a state holding marker 2, the
`points.remove_all` handler empties the registry (the registry "forgets"
the marker) yet no destruction of marker 2 is ever logged — the marker is
detached, not destroyed, so "each marker is destroyed before the registry
forgets it" fails at this input. -/
theorem removeAll_no_destroy_counterexample :
    mapLookup wStateM.pointMarkers 2 = some wMarker ∧
    (onPointsRemoveAll wStateM).pointMarkers = [] ∧
    ¬ MarkerEvent.destroyed 2 ∈ (onPointsRemoveAll wStateM).events := by
  decide

/-- Witness for C6: updating the absent, visible point `wPoint1`. -/
theorem onPointsUpdate_reconcile_witness :
    (wEnv.isVisible wPoint1 wEnv.startTime wEnv.endTime = true ∧
      mapLookup wStateM.pointMarkers wPoint1.id = none) ∧
    mapLookup (removePoint wStateM wPoint1).pointMarkers wPoint1.id = none ∧
    onPointsUpdate wEnv wStateM wPoint1 =
      updatePoints wEnv (addPointMarker wEnv (removePoint wStateM wPoint1)
        wPoint1).1 wEnv.startTime wEnv.endTime ∧
    onPointsUpdate wEnv wStateM wPoint1 = onPointsAdd wEnv wStateM [wPoint1] :=
  ⟨⟨by decide, by decide⟩,
    (onPointsUpdate_reconcile wEnv wStateM wPoint1).1,
    ((onPointsUpdate_reconcile wEnv wStateM wPoint1).2.1 (by decide)).1,
    (onPointsUpdate_reconcile wEnv wStateM wPoint1).2.2.2 (by decide)⟩

/-- Witness for C7: both the all-defaults and the all-configured cases. -/
theorem createPointMarker_styling_witness :
    (createPointMarker wEnv true wPoint1).draggable = (true && wPoint1.editable) ∧
    (createPointMarker wEnv true wPoint2).color = "blue" ∧
    (createPointMarker wEnv true wPoint1).color = wEnv.options.pointMarkerColor ∧
    (createPointMarker wEnv true wPoint1).fontFamily = "sans-serif" ∧
    (createPointMarker wEnv true wPoint1).fontSize = 10 ∧
    (createPointMarker wEnv true wPoint1).fontStyle = "normal" ∧
    (createPointMarker wEnvSet true wPoint1).fontFamily = "Arial" ∧
    (createPointMarker wEnvSet true wPoint1).fontSize = 12 ∧
    (createPointMarker wEnvSet true wPoint1).fontStyle = "italic" :=
  ⟨(createPointMarker_styling wEnv true wPoint1).1,
    (createPointMarker_styling wEnv true wPoint2).2.2.1 "blue" rfl (by decide),
    (createPointMarker_styling wEnv true wPoint1).2.1 rfl,
    (createPointMarker_styling wEnv true wPoint1).2.2.2.1 rfl,
    (createPointMarker_styling wEnv true wPoint1).2.2.2.2.2.1 rfl,
    (createPointMarker_styling wEnv true wPoint1).2.2.2.2.2.2.2.1 rfl,
    (createPointMarker_styling wEnvSet true wPoint1).2.2.2.2.1 "Arial" rfl
      (by decide),
    (createPointMarker_styling wEnvSet true wPoint1).2.2.2.2.2.2.1 12 rfl
      (by decide),
    (createPointMarker_styling wEnvSet true wPoint1).2.2.2.2.2.2.2.2 "italic" rfl
      (by decide)⟩

/-- Witness for C8: removing the absent `wPoint1` is a no-op; removing
`wPoint2` destroys exactly its marker. -/
theorem removePoint_silent_noop_witness :
    (mapLookup wStateM.pointMarkers wPoint1.id = none ∧
      mapLookup wStateM.pointMarkers wPoint2.id = some wMarker) ∧
    removePoint wStateM wPoint1 = wStateM ∧
    (removePoint wStateM wPoint2).events =
      wStateM.events ++ [MarkerEvent.destroyed wPoint2.id] ∧
    mapLookup (removePoint wStateM wPoint2).pointMarkers wPoint2.id = none ∧
    onPointsRemove wStateM [wPoint1] = wStateM :=
  ⟨⟨by decide, by decide⟩,
    (removePoint_silent_noop wStateM wPoint1).1 (by decide),
    ((removePoint_silent_noop wStateM wPoint2).2.1 wMarker (by decide)).2.1,
    ((removePoint_silent_noop wStateM wPoint2).2.1 wMarker (by decide)).2.2.1,
    (removePoint_silent_noop wStateM wPoint1).2.2 [wPoint1]
      (fun q hq => by rw [List.mem_singleton.mp hq]; decide)⟩

/-- Witness for C9 around a drag of `wPoint2`. -/
theorem dragSession_invariant_witness :
    (onPointHandleDragStart wStateM wPoint2).dragPointMarker =
      mapLookup wStateM.pointMarkers wPoint2.id ∧
    (onPointHandleDragEnd wStateM).dragPointMarker = none ∧
    (updatePoints wEnv wStateM 0 6).dragPointMarker =
      wStateM.dragPointMarker ∧
    (onPointHandleDragMove wEnv wStateM wPoint2).map
      (fun r => r.1.dragPointMarker) = some wStateM.dragPointMarker := by
  have h := dragSession_invariant wEnv wStateM wPoint2 [] 0 6
  refine ⟨h.1, h.2.1, h.2.2.1, ?_⟩
  have h9 := h.2.2.2.2.2.2.2.2
  cases hr : onPointHandleDragMove wEnv wStateM wPoint2 with
  | none => exact absurd hr (by decide)
  | some r =>
    obtain ⟨st1, p1⟩ := r
    simpa using h9 st1 p1 hr

/-- Witness for C10: a cross-view drag of the invisible, unregistered
`wPoint3` creates its marker; the next `updatePoints` pass removes it. -/
theorem onPointsDrag_ignores_visibility_witness :
    (mapLookup wStateM.pointMarkers wPoint3.id = none ∧
      wEnv.isVisible wPoint3 0 6 = false) ∧
    mapLookup (onPointsDrag wEnv wStateM wPoint3).pointMarkers wPoint3.id =
      some { createPointMarker wEnv wStateM.allowEditing wPoint3 with
              x := wEnv.timeToPixels wPoint3.time - wEnv.frameOffset } ∧
    (onPointsDrag wEnv wStateM wPoint3).events =
      wStateM.events ++ [MarkerEvent.created wPoint3.id] ∧
    mapLookup (updatePoints wEnv (onPointsDrag wEnv wStateM wPoint3) 0 6).pointMarkers
      wPoint3.id = none :=
  ⟨⟨by decide, by decide⟩,
    (onPointsDrag_ignores_visibility wEnv wStateM wPoint3 0 6 (by decide)
      (by decide) (by decide) keyInv_wStateM).1,
    (onPointsDrag_ignores_visibility wEnv wStateM wPoint3 0 6 (by decide)
      (by decide) (by decide) keyInv_wStateM).2.1,
    (onPointsDrag_ignores_visibility wEnv wStateM wPoint3 0 6 (by decide)
      (by decide) (by decide) keyInv_wStateM).2.2⟩

end PointsLayerSpec
